import Mathlib

/-!
Verification of dependency_detective.py: a shallow embedding of the
program's dependency-scanning logic, with theorems checking the
natural-language description of the tool against the code.

Python dictionaries are modelled as association lists with overwrite
semantics (`pyDictSet`) and first-match lookup (`pyDictGet`); Python sets
are `Finset String`; filesystem traversal results, parsed Python syntax
trees and network responses are explicit inductive data fed to the
embedded functions.
-/

/-! ## Python dict model -/

/-- Model of `d.get(k)` on a Python dict represented as an association list. -/
def pyDictGet (d : List (String × String)) (k : String) : Option String :=
  (d.find? (fun e => e.1 == k)).map (fun e => e.2)

/-- Model of `d.get(k, dflt)`. -/
def pyDictGetD (d : List (String × String)) (k dflt : String) : String :=
  (pyDictGet d k).getD dflt

/-- Model of `k in d` (key membership). -/
def pyDictHasKey (d : List (String × String)) (k : String) : Bool :=
  (pyDictGet d k).isSome

/-- Model of `d[k] = v`: overwrite the binding when the key is present,
append it otherwise. -/
def pyDictSet (d : List (String × String)) (k v : String) : List (String × String) :=
  if d.any (fun e => e.1 == k) then
    d.map (fun e => if e.1 == k then (k, v) else e)
  else d ++ [(k, v)]

/-- Model of `str.lower()`: lowercase every character (ASCII case
mapping). -/
def pyLower (s : String) : String :=
  String.mk (s.toList.map Char.toLower)

/-- Model of `str.strip()`: drop leading and trailing whitespace. -/
def pyStrip (s : String) : String :=
  String.mk (((s.toList.dropWhile Char.isWhitespace).reverse.dropWhile
    Char.isWhitespace).reverse)

/-! ## Import extraction (`extract_imports`, lines 177-194)

A successfully parsed file is a list of the `ast.Import` / `ast.ImportFrom`
nodes that `ast.walk` yields, in walk order; a file whose contents raise
`SyntaxError` in `ast.parse` is `none`. -/

/-- An import statement node of the Python AST: `import a.b, c` carries the
dotted names, `from M import x` carries the relative level and the optional
module name (`from . import x` has module `none`). -/
inductive ImportNode where
  | imp (names : List String)
  | impFrom (level : Nat) (module : Option String)

/-- Model of `name.split('.')[0]`: the first dot-separated component of a
dotted name, i.e. the characters before the first dot (the whole name when
it has no dot, empty when it starts with a dot). -/
def firstComponent (s : String) : String :=
  String.mk (s.toList.takeWhile (fun c => c != '.'))

/-- One iteration of the `ast.walk` loop of `extract_imports`: an
`ast.Import` adds the first dotted component of each imported name; an
`ast.ImportFrom` adds the first component of its module when
`node.level == 0 and node.module` holds (Python truthiness: the module is
present and non-empty). -/
def importStep (acc : Finset String) (node : ImportNode) : Finset String :=
  match node with
  | .imp names => names.foldl (fun a nm => insert (firstComponent nm) a) acc
  | .impFrom level module =>
    match module with
    | some m => if level == 0 && !(m == "") then insert (firstComponent m) acc else acc
    | none => acc

/-- Model of `extract_imports`: fold the walk's import nodes into a set,
starting from the empty set; a file that fails to parse contributes the
set collected before the failure, which is empty. -/
def extract_imports (parsed : Option (List ImportNode)) : Finset String :=
  match parsed with
  | none => ∅
  | some nodes => nodes.foldl importStep ∅

/-- Spec-side reading of the claim on `extract_imports`: a module name `s`
is extracted from a node when the node is an `import` statement one of
whose dotted names has first component `s`, or an absolute (level-0)
`from M import ...` statement whose module's first component is `s`. -/
def specImportedAs (node : ImportNode) (s : String) : Prop :=
  match node with
  | .imp names => ∃ nm ∈ names, firstComponent nm = s
  | .impFrom level module => level = 0 ∧ ∃ m, module = some m ∧ firstComponent m = s

/-- A node as produced by `ast.parse` on real source: an `ImportFrom`
module is either absent or a non-empty dotted name. -/
def wfImportNode : ImportNode → Bool
  | .impFrom _ module => module != some ""
  | .imp _ => true

/-! ## Package resolution (`resolve_package`, lines 196-204) -/

/-- Model of `resolve_package`: `None` for local project modules and
blacklisted (standard library) modules, otherwise
`package_mappings.get(module, module)`. -/
def resolve_package (module : String) (localImports : Finset String)
    (blacklist : Finset String) (packageMappings : List (String × String)) :
    Option String :=
  if module ∈ localImports then none
  else if module ∈ blacklist then none
  else some (pyDictGetD packageMappings module module)

/-! ## Directory scan (`scan_directory`, lines 206-224) -/

/-- A `.py` file as `directory.rglob('*.py')` yields it: its full path
components (the filename is the last part, as in `file_path.parts`) and
its parse outcome. -/
structure PyFile where
  parts : List String
  parsed : Option (List ImportNode)

/-- Model of `file_path.name`. -/
def PyFile.fileName (f : PyFile) : String :=
  f.parts.getLastD ""

/-- Python truthiness of a string: non-empty. -/
def pyTruthy (s : String) : Bool :=
  !(s == "")

/-- The packages one scanned file contributes: each extracted module is
resolved, and the result is added when it is truthy (`if package:`). -/
def filePackages (localImports blacklist : Finset String)
    (packageMappings : List (String × String)) (f : PyFile) : Finset String :=
  (extract_imports f.parsed).biUnion (fun m =>
    match resolve_package m localImports blacklist packageMappings with
    | some p => if pyTruthy p then {p} else ∅
    | none => ∅)

/-- Model of `scan_directory`: iterate over the globbed `.py` files,
skipping a file named like the running script and a file one of whose path
parts lies in the excluded-directories set, and accumulate the resolved
packages of the rest. -/
def scan_directory (files : List PyFile) (blacklist localImports : Finset String)
    (scriptName : String) (excludedDirs : Finset String)
    (packageMappings : List (String × String)) : Finset String :=
  files.foldl (fun deps f =>
    if f.fileName == scriptName then deps
    else if f.parts.any (fun p => decide (p ∈ excludedDirs)) then deps
    else deps ∪ filePackages localImports blacklist packageMappings f) ∅

/-- Spec-side reading of the claim on `scan_directory`, word for word:
a package `p` is returned when some kept file has an extracted module
whose resolution is non-`None` and equal to `p`. -/
def specScanMem (files : List PyFile) (blacklist localImports : Finset String)
    (scriptName : String) (excludedDirs : Finset String)
    (packageMappings : List (String × String)) (p : String) : Prop :=
  ∃ f ∈ files, f.fileName ≠ scriptName ∧
    (∀ part ∈ f.parts, part ∉ excludedDirs) ∧
    ∃ m ∈ extract_imports f.parsed,
      resolve_package m localImports blacklist packageMappings = some p

/-- Amended spec-side reading: as `specScanMem`, but the resolved package
must additionally be a non-empty string (Python's `if package:` check). -/
def specScanTruthyMem (files : List PyFile) (blacklist localImports : Finset String)
    (scriptName : String) (excludedDirs : Finset String)
    (packageMappings : List (String × String)) (p : String) : Prop :=
  ∃ f ∈ files, f.fileName ≠ scriptName ∧
    (∀ part ∈ f.parts, part ∉ excludedDirs) ∧
    ∃ m ∈ extract_imports f.parsed,
      resolve_package m localImports blacklist packageMappings = some p ∧ p ≠ ""

/-! ## Installed packages and reconciliation (lines 154-163 and line 442) -/

/-- Model of `get_installed_packages`: from the decoded `pip list` JSON
(a list of name/version records) build the dict
`{pkg['name'].lower(): pkg['version'] for pkg in packages}`. -/
def get_installed_packages (pipList : List (String × String)) :
    List (String × String) :=
  pipList.foldl (fun d p => pyDictSet d (pyLower p.1) p.2) []

/-- Model of line 442,
`[dep for dep in required_deps if dep.lower() not in installed_deps]`. -/
def missing_deps (required : List String) (installed : List (String × String)) :
    List String :=
  required.filter (fun dep => !(pyDictHasKey installed (pyLower dep)))

/-! ## Requirements file generation (`generate_requirements_file`,
lines 243-268)

The PyPI lookup `get_latest_version(dep)` is abstracted as an oracle
`pypi : String → Option String`; the written file is modelled as its list
of lines (without the trailing newlines). -/

/-- Python truthiness of `version : str | None`. -/
def truthyOpt : Option String → Bool
  | none => false
  | some s => !(s == "")

/-- One iteration of the loop of `generate_requirements_file`: look the
dependency up (lowercased) in the installed dict; when that is falsy, ask
PyPI; write `dep==version` when the result is truthy and the bare name
otherwise. -/
def requirementLine (installed : List (String × String))
    (pypi : String → Option String) (dep : String) : String :=
  let v0 := pyDictGet installed (pyLower dep)
  let v1 := if truthyOpt v0 then v0 else pypi dep
  match v1 with
  | some v => if !(v == "") then dep ++ "==" ++ v else dep
  | none => dep

/-- Model of `generate_requirements_file`: one line per dependency, in the
order of `sorted(list(dependencies))`. -/
def generate_requirements_lines (dependencies : Finset String)
    (installed : List (String × String)) (pypi : String → Option String) :
    List String :=
  (dependencies.sort (· ≤ ·)).map (requirementLine installed pypi)

/-- Spec-side line, word for word from the claim: the version comes from
the installed dict when the lowercased name is present, otherwise from the
PyPI lookup, and the line is the bare name when neither yields a version. -/
def claimedLine (installed : List (String × String))
    (pypi : String → Option String) (dep : String) : String :=
  match pyDictGet installed (pyLower dep) with
  | some v => dep ++ "==" ++ v
  | none =>
    match pypi dep with
    | some v => dep ++ "==" ++ v
    | none => dep

/-- Amended spec-side line: the version comes from the installed dict when
present and non-empty, otherwise from the PyPI lookup when that yields a
non-empty version, and the line is the bare name otherwise. -/
def amendedLine (installed : List (String × String))
    (pypi : String → Option String) (dep : String) : String :=
  match pyDictGet installed (pyLower dep) with
  | some v =>
    if v = "" then
      match pypi dep with
      | some w => if w = "" then dep else dep ++ "==" ++ w
      | none => dep
    else dep ++ "==" ++ v
  | none =>
    match pypi dep with
    | some w => if w = "" then dep else dep ++ "==" ++ w
    | none => dep

/-! ## PyPI version lookup (`get_latest_version`, lines 165-175)

The network interaction is modelled as a world the function observes:
either the request raises a `requests.exceptions.RequestException`
(connection error, timeout), or a response arrives with a status code and
a parsed JSON body. `response.raise_for_status()` raises `HTTPError`, a
`RequestException`, exactly for 4XX and 5XX statuses. The function's
outcome is `Except`: `.error` marks an uncaught Python exception, `.ok`
the returned value (a JSON value or `None`). -/

/-- A JSON value, as far as `data.get("info", {}).get("version")` can
observe it: a string or an object. -/
inductive JVal where
  | jstr (s : String)
  | jobj (fields : List (String × JVal))

/-- Lookup of a key in a JSON object's fields. -/
def jlookup (fields : List (String × JVal)) (k : String) : Option JVal :=
  (fields.find? (fun e => e.1 == k)).map (fun e => e.2)

/-- The observable outcome of `requests.get` on the PyPI URL. -/
inductive PyPIWorld where
  | requestExc
  | response (status : Nat) (body : JVal)

/-- Model of `get_latest_version`: a caught `RequestException` (raised by
the request itself or by `raise_for_status` on a 4XX/5XX status) yields
`None`; otherwise `data.get("info", {}).get("version")` is returned, and
calling `.get` on a non-object raises an uncaught `AttributeError`. -/
def get_latest_version (world : PyPIWorld) : Except String (Option JVal) :=
  match world with
  | .requestExc => .ok none
  | .response status body =>
    if (400 ≤ status ∧ status < 500) ∨ (500 ≤ status ∧ status < 600) then .ok none
    else
      match body with
      | .jobj fields =>
        match (jlookup fields "info").getD (.jobj []) with
        | .jobj infoFields => .ok (jlookup infoFields "version")
        | .jstr _ => .error "AttributeError"
      | .jstr _ => .error "AttributeError"

/-- The value under the `info`/`version` keys of a response body, when the
body and its `info` field are objects. -/
def versionField : PyPIWorld → Option JVal
  | .response _ (.jobj fields) =>
    match jlookup fields "info" with
    | some (.jobj infoFields) => jlookup infoFields "version"
    | _ => none
  | _ => none

/-- The shape of a PyPI HTTP exchange: the status code is a valid HTTP
status (below 600), and any successful (status < 400) response has an
object body whose `info` field, when present, is an object whose
`version` field, when present, is a string. -/
def pypiShape : PyPIWorld → Prop
  | .requestExc => True
  | .response status body =>
    status < 600 ∧
    (status < 400 →
      ∃ fields, body = .jobj fields ∧
        (jlookup fields "info" = none ∨
          ∃ infoFields, jlookup fields "info" = some (.jobj infoFields) ∧
            (jlookup infoFields "version" = none ∨
              ∃ v, jlookup infoFields "version" = some (.jstr v))))

/-- The request failed: the request itself raised, or the response status
is 4XX or 5XX. -/
def requestFailed : PyPIWorld → Prop
  | .requestExc => True
  | .response status _ => (400 ≤ status ∧ status < 500) ∨ (500 ≤ status ∧ status < 600)

/-! ## Installation (`install_dependencies`, lines 226-241)

A `pip install` run is abstracted as an oracle `ok : String → Bool`
telling whether `subprocess.check_call` succeeds for a dependency. -/

/-- Model of `install_dependencies`: try every dependency in order; a
failed `check_call` (a `CalledProcessError`) appends the dependency to the
failure list and the loop continues. -/
def install_dependencies (missingDeps : List String) (ok : String → Bool) :
    List String :=
  match missingDeps with
  | [] => []
  | dep :: rest =>
    if ok dep then install_dependencies rest ok
    else dep :: install_dependencies rest ok

/-! ## Provisioning order (`run_in_temp_venv`, lines 279-298, and the tail
of `main`, lines 442-481)

The externally visible actions are modelled as an event trace: creating a
venv, installing one dependency, running the project file. An oracle
`ok : Ev → Bool` tells whether the corresponding subprocess call succeeds.
Each flow returns its trace of attempted subprocess actions together with
a flag for normal completion. -/

/-- An externally visible action of the provisioning flows. -/
inductive Ev where
  | createVenv
  | install (dep : String)
  | runProj
deriving DecidableEq

/-- The install loop of `run_in_temp_venv`: `check_call` per dependency,
aborting the loop on the first failure (the exception propagates to the
handler). Returns the trace and whether the loop completed. -/
def tempVenvInstalls (ok : Ev → Bool) : List String → List Ev × Bool
  | [] => ([], true)
  | dep :: rest =>
    if ok (Ev.install dep) then
      (Ev.install dep :: (tempVenvInstalls ok rest).1, (tempVenvInstalls ok rest).2)
    else ([Ev.install dep], false)

/-- Model of `run_in_temp_venv`: create the venv, install every required
dependency, then run the project file; any `CalledProcessError` along the
way is caught and leads to `sys.exit(1)` without the later steps. -/
def run_in_temp_venv (requiredDeps : List String) (ok : Ev → Bool) :
    List Ev × Bool :=
  if ok Ev.createVenv then
    if (tempVenvInstalls ok requiredDeps).2 then
      (Ev.createVenv :: ((tempVenvInstalls ok requiredDeps).1 ++ [Ev.runProj]),
        ok Ev.runProj)
    else (Ev.createVenv :: (tempVenvInstalls ok requiredDeps).1, false)
  else ([Ev.createVenv], false)

/-- Model of the default flow of `main` after `missing_deps` is computed
(lines 454-481): when dependencies are missing, ask (or honour `--yes`);
on consent run `install_dependencies` and exit with status 1 when any
installation failed; on refusal exit with status 1; otherwise run the
project file when it exists. -/
def main_run_flow (missingDeps : List String) (autoYes : Bool)
    (userInput : String) (ok : Ev → Bool) (projExists : Bool) :
    List Ev × Bool :=
  if missingDeps.isEmpty then
    if projExists then ([Ev.runProj], ok Ev.runProj) else ([], false)
  else
    let response := if autoYes then "y" else pyLower (pyStrip userInput)
    if response == "y" then
      let failed := install_dependencies missingDeps (fun d => ok (Ev.install d))
      if failed.isEmpty then
        if projExists then (missingDeps.map Ev.install ++ [Ev.runProj], ok Ev.runProj)
        else (missingDeps.map Ev.install, false)
      else (missingDeps.map Ev.install, false)
    else ([], false)

/-! ## Local module discovery (`find_local_imports`, lines 120-144) -/

/-- A filesystem entry: a directory with its children, or a plain file. -/
inductive FSItem where
  | dir (dname : String) (children : List FSItem)
  | file (fname : String)

/-- The entry's own name. -/
def FSItem.itemName : FSItem → String
  | .dir n _ => n
  | .file n => n

/-- Model of `(item / "__init__.py").exists()` for a directory's children. -/
def hasInitFile (children : List FSItem) : Bool :=
  children.any (fun c => c.itemName == "__init__.py")

/-- Index of the last occurrence of a dot in a name's characters
(`name.rfind('.')` when it is not -1). -/
def lastDotIdx : List Char → Option Nat
  | [] => none
  | c :: rest =>
    match lastDotIdx rest with
    | some i => some (i + 1)
    | none => if c == '.' then some 0 else none

/-- Model of `pathlib.PurePath.suffix`: the final extension including the
dot, empty when the last dot is leading, trailing or absent. -/
def pySuffix (nm : String) : String :=
  match lastDotIdx nm.toList with
  | some i =>
    if 0 < i ∧ i < nm.toList.length - 1 then String.mk (nm.toList.drop i) else ""
  | none => ""

/-- Model of `pathlib.PurePath.stem`: the name without its final
extension. -/
def pyStem (nm : String) : String :=
  match lastDotIdx nm.toList with
  | some i =>
    if 0 < i ∧ i < nm.toList.length - 1 then String.mk (nm.toList.take i) else nm
  | none => nm

/-- One iteration of the scan loop of `find_local_imports`: a directory
containing `__init__.py` is recorded by its name, a `.py` file by its
stem. -/
def scanItem : FSItem → Option String
  | .dir n ch => if hasInitFile ch then some n else none
  | .file n => if pySuffix n == ".py" then some (pyStem n) else none

/-- Model of `(project_root / "src").is_dir()` plus iteration: the
children of the first directory child named `src`, when there is one. -/
def srcChildren (rootChildren : List FSItem) : Option (List FSItem) :=
  rootChildren.findSome? (fun it =>
    match it with
    | .dir n ch => if n == "src" then some ch else none
    | .file _ => none)

/-- Fold one scanned path's items into the accumulated set. -/
def addLocals (items : List FSItem) (acc : Finset String) : Finset String :=
  items.foldl (fun a it =>
    match scanItem it with
    | some n => insert n a
    | none => a) acc

/-- Model of `find_local_imports`: scan the project root's immediate
children, and the `src` subdirectory's immediate children when `src` is a
directory. -/
def find_local_imports (rootChildren : List FSItem) : Finset String :=
  match srcChildren rootChildren with
  | some ch => addLocals ch (addLocals rootChildren ∅)
  | none => addLocals rootChildren ∅

/-- Spec-side reading of what `find_local_imports` records for one
immediate child: a directory is recorded by its name only if it contains
an `__init__.py`, and a `.py` file is recorded by its stem. -/
def recordedAsLocal (it : FSItem) (m : String) : Prop :=
  (∃ ch, it = FSItem.dir m ch ∧ hasInitFile ch = true) ∨
  (∃ nm, it = FSItem.file nm ∧ pySuffix nm = ".py" ∧ pyStem nm = m)

/-! ## Helper lemmas -/

lemma install_dependencies_eq_filter (missingDeps : List String) (ok : String → Bool) :
    install_dependencies missingDeps ok = missingDeps.filter (fun d => !(ok d)) := by
  induction missingDeps with
  | nil => rfl
  | cons dep rest ih =>
    by_cases h : ok dep <;> simp [install_dependencies, List.filter_cons, h, ih]

/-! ## Theorems for the claims -/

/-- C2: `resolve_package` returns `None` exactly for local project modules
and blacklisted modules, and otherwise returns the mapping-table entry for
the module when there is one and the module name itself when there is
none. -/
theorem c2_resolve_package_characterization (module : String)
    (localImports blacklist : Finset String)
    (packageMappings : List (String × String)) :
    (resolve_package module localImports blacklist packageMappings = none ↔
      module ∈ localImports ∨ module ∈ blacklist)
    ∧ resolve_package module localImports blacklist packageMappings =
        if module ∈ localImports ∨ module ∈ blacklist then none
        else some ((pyDictGet packageMappings module).getD module) := by
  unfold resolve_package pyDictGetD
  by_cases h1 : module ∈ localImports <;> by_cases h2 : module ∈ blacklist <;>
    simp [h1, h2]

/-- C5: a file whose contents fail to parse contributes the empty set of
imports; the `SyntaxError` is caught and the set collected before the
failure, which is empty, is returned. -/
theorem c5_extract_imports_syntax_error :
    extract_imports none = (∅ : Finset String) := rfl

/-- C10: `install_dependencies` attempts every dependency in order and
returns exactly the failing ones, in input order (the filter of the input
list by failure), a subsequence of the input, empty exactly when every
installation succeeds. -/
theorem c10_install_dependencies_failures (missingDeps : List String)
    (ok : String → Bool) :
    install_dependencies missingDeps ok = missingDeps.filter (fun d => !(ok d))
    ∧ (install_dependencies missingDeps ok).Sublist missingDeps
    ∧ (install_dependencies missingDeps ok = [] ↔ ∀ d ∈ missingDeps, ok d = true) := by
  refine ⟨install_dependencies_eq_filter missingDeps ok, ?_, ?_⟩
  · rw [install_dependencies_eq_filter]
    exact List.filter_sublist missingDeps
  · rw [install_dependencies_eq_filter]
    simp

lemma mem_names_foldl (names : List String) (acc : Finset String) (s : String) :
    s ∈ names.foldl (fun a nm => insert (firstComponent nm) a) acc ↔
      s ∈ acc ∨ ∃ nm ∈ names, firstComponent nm = s := by
  induction names generalizing acc with
  | nil => simp
  | cons nm rest ih =>
    rw [List.foldl_cons, ih]
    simp only [Finset.mem_insert, List.mem_cons]
    constructor
    · rintro ((h | h) | ⟨x, hx, hfc⟩)
      · exact Or.inr ⟨nm, Or.inl rfl, h.symm⟩
      · exact Or.inl h
      · exact Or.inr ⟨x, Or.inr hx, hfc⟩
    · rintro (h | ⟨x, hx | hx, hfc⟩)
      · exact Or.inl (Or.inr h)
      · exact Or.inl (Or.inl (hx ▸ hfc.symm))
      · exact Or.inr ⟨x, hx, hfc⟩

lemma mem_importStep (node : ImportNode) (acc : Finset String) (s : String)
    (hwf : wfImportNode node = true) :
    s ∈ importStep acc node ↔ s ∈ acc ∨ specImportedAs node s := by
  cases node with
  | imp names =>
    show s ∈ names.foldl (fun a nm => insert (firstComponent nm) a) acc ↔ _
    rw [mem_names_foldl]
    simp [specImportedAs]
  | impFrom level module =>
    cases module with
    | none => simp [importStep, specImportedAs]
    | some m =>
      have hmne : ¬(m = "") := by
        simpa [wfImportNode] using hwf
      by_cases hl : level = 0
      · subst hl
        have hcond : ((0 : Nat) == 0 && !(m == "")) = true := by
          simp [hmne]
        show s ∈ (if ((0 : Nat) == 0 && !(m == "")) = true then
            insert (firstComponent m) acc else acc) ↔ _
        rw [if_pos hcond]
        simp only [Finset.mem_insert, specImportedAs, Option.some.injEq]
        constructor
        · rintro (h | h)
          · exact Or.inr ⟨by trivial, m, rfl, h.symm⟩
          · exact Or.inl h
        · rintro (h | ⟨-, x, rfl, hfc⟩)
          · exact Or.inr h
          · exact Or.inl hfc.symm
      · have hcond : (level == 0 && !(m == "")) = false := by
          simp [hl]
        show s ∈ (if (level == 0 && !(m == "")) = true then
            insert (firstComponent m) acc else acc) ↔ _
        rw [hcond]
        simp [specImportedAs, hl]

lemma mem_importStep_foldl (nodes : List ImportNode) (acc : Finset String)
    (s : String) (hwf : ∀ n ∈ nodes, wfImportNode n = true) :
    s ∈ nodes.foldl importStep acc ↔
      s ∈ acc ∨ ∃ n ∈ nodes, specImportedAs n s := by
  induction nodes generalizing acc with
  | nil => simp
  | cons node rest ih =>
    have hwfrest : ∀ n ∈ rest, wfImportNode n = true :=
      fun n hn => hwf n (List.mem_cons_of_mem node hn)
    rw [List.foldl_cons, ih _ hwfrest,
      mem_importStep node acc s (hwf node (List.mem_cons_self _ _))]
    constructor
    · rintro ((h | h) | ⟨n, hn, hs⟩)
      · exact Or.inl h
      · exact Or.inr ⟨node, List.mem_cons_self _ _, h⟩
      · exact Or.inr ⟨n, List.mem_cons_of_mem _ hn, hs⟩
    · rintro (h | ⟨n, hn, hs⟩)
      · exact Or.inl (Or.inl h)
      · rcases List.mem_cons.1 hn with rfl | hn'
        · exact Or.inl (Or.inr hs)
        · exact Or.inr ⟨n, hn', hs⟩

/-- C1: on a successfully parsed file, `extract_imports` returns exactly
the first dotted components of the names of `import` statements and of the
modules of absolute (level-0) `from` statements; relative imports and
`from` statements without a module contribute nothing. -/
theorem c1_extract_imports_spec (nodes : List ImportNode)
    (hwf : ∀ n ∈ nodes, wfImportNode n = true) (s : String) :
    s ∈ extract_imports (some nodes) ↔ ∃ n ∈ nodes, specImportedAs n s := by
  show s ∈ nodes.foldl importStep ∅ ↔ _
  rw [mem_importStep_foldl nodes ∅ s hwf]
  simp

/-- Witness for C1 at a concrete parse tree: `import requests, os.path`,
`from a.b import c`, `from . import d`. -/
theorem c1_extract_imports_spec_witness :
    "requests" ∈ extract_imports (some [ImportNode.imp ["requests", "os.path"],
      ImportNode.impFrom 0 (some "a.b"), ImportNode.impFrom 1 none]) := by
  refine (c1_extract_imports_spec _ (by decide) "requests").mpr ?_
  exact ⟨ImportNode.imp ["requests", "os.path"], by simp,
    ⟨"requests", by simp, by decide⟩⟩

lemma mem_filePackages (localImports blacklist : Finset String)
    (packageMappings : List (String × String)) (f : PyFile) (p : String) :
    p ∈ filePackages localImports blacklist packageMappings f ↔
      ∃ m ∈ extract_imports f.parsed,
        resolve_package m localImports blacklist packageMappings = some p ∧ p ≠ "" := by
  unfold filePackages
  rw [Finset.mem_biUnion]
  constructor
  · rintro ⟨m, hm, hp⟩
    refine ⟨m, hm, ?_⟩
    cases hres : resolve_package m localImports blacklist packageMappings with
    | none => simp [hres] at hp
    | some q =>
      by_cases hq : q = ""
      · subst hq
        simp [hres, pyTruthy] at hp
      · simp [hres, pyTruthy, hq] at hp
        subst hp
        exact ⟨rfl, hq⟩
  · rintro ⟨m, hm, hres, hp⟩
    exact ⟨m, hm, by simp [hres, pyTruthy, hp]⟩

lemma mem_scan_step (localImports blacklist : Finset String) (scriptName : String)
    (excludedDirs : Finset String) (packageMappings : List (String × String))
    (f : PyFile) (acc : Finset String) (p : String) :
    p ∈ (if f.fileName == scriptName then acc
        else if f.parts.any (fun part => decide (part ∈ excludedDirs)) then acc
        else acc ∪ filePackages localImports blacklist packageMappings f) ↔
      p ∈ acc ∨ (f.fileName ≠ scriptName ∧ (∀ part ∈ f.parts, part ∉ excludedDirs)
        ∧ p ∈ filePackages localImports blacklist packageMappings f) := by
  by_cases h1 : f.fileName == scriptName
  · rw [if_pos h1]
    have h1' : f.fileName = scriptName := by simpa using h1
    simp [h1']
  · by_cases h2 : f.parts.any (fun part => decide (part ∈ excludedDirs))
    · rw [if_neg h1, if_pos h2]
      rcases List.any_eq_true.mp h2 with ⟨part, hpart, hpmem⟩
      have hpmem' : part ∈ excludedDirs := by simpa using hpmem
      constructor
      · exact Or.inl
      · rintro (h | ⟨-, hexcl, -⟩)
        · exact h
        · exact absurd hpmem' (hexcl part hpart)
    · rw [if_neg h1, if_neg h2, Finset.mem_union]
      have h1' : f.fileName ≠ scriptName := by simpa using h1
      have h2' : ∀ part ∈ f.parts, part ∉ excludedDirs := by
        intro part hpart hmem
        exact h2 (List.any_eq_true.mpr ⟨part, hpart, by simpa using hmem⟩)
      constructor
      · rintro (h | h)
        · exact Or.inl h
        · exact Or.inr ⟨h1', h2', h⟩
      · rintro (h | ⟨-, -, h⟩)
        · exact Or.inl h
        · exact Or.inr h

lemma mem_scan_foldl (files : List PyFile) (blacklist localImports : Finset String)
    (scriptName : String) (excludedDirs : Finset String)
    (packageMappings : List (String × String)) (acc : Finset String) (p : String) :
    p ∈ files.foldl (fun deps f =>
        if f.fileName == scriptName then deps
        else if f.parts.any (fun part => decide (part ∈ excludedDirs)) then deps
        else deps ∪ filePackages localImports blacklist packageMappings f) acc ↔
      p ∈ acc ∨ ∃ f ∈ files, f.fileName ≠ scriptName ∧
        (∀ part ∈ f.parts, part ∉ excludedDirs) ∧
        p ∈ filePackages localImports blacklist packageMappings f := by
  induction files generalizing acc with
  | nil => simp
  | cons f rest ih =>
    rw [List.foldl_cons, ih,
      mem_scan_step localImports blacklist scriptName excludedDirs packageMappings f acc p]
    constructor
    · rintro ((h | ⟨hn, he, hp⟩) | ⟨g, hg, hrest⟩)
      · exact Or.inl h
      · exact Or.inr ⟨f, List.mem_cons_self _ _, hn, he, hp⟩
      · exact Or.inr ⟨g, List.mem_cons_of_mem _ hg, hrest⟩
    · rintro (h | ⟨g, hg, hrest⟩)
      · exact Or.inl (Or.inl h)
      · rcases List.mem_cons.1 hg with rfl | hg'
        · exact Or.inl (Or.inr hrest)
        · exact Or.inr ⟨g, hg', hrest⟩

/-- C3 (amended): `scan_directory` returns the union, over every kept
`.py` file (filename different from the script's, no path part in the
excluded set), of the truthy — non-`None` and non-empty — results of
resolving each extracted module name. -/
theorem c3_scan_directory_amended (files : List PyFile)
    (blacklist localImports : Finset String) (scriptName : String)
    (excludedDirs : Finset String) (packageMappings : List (String × String))
    (p : String) :
    p ∈ scan_directory files blacklist localImports scriptName excludedDirs
        packageMappings ↔
      specScanTruthyMem files blacklist localImports scriptName excludedDirs
        packageMappings p := by
  unfold scan_directory specScanTruthyMem
  rw [mem_scan_foldl files blacklist localImports scriptName excludedDirs
    packageMappings ∅ p]
  simp only [Finset.not_mem_empty, false_or]
  constructor
  · rintro ⟨f, hf, hn, he, hp⟩
    exact ⟨f, hf, hn, he, (mem_filePackages _ _ _ _ _).mp hp⟩
  · rintro ⟨f, hf, hn, he, hp⟩
    exact ⟨f, hf, hn, he, (mem_filePackages _ _ _ _ _).mpr hp⟩

/-- Counterexample to C3 as stated: with the custom mapping `x -> ""`
(reachable through `--map x:`), resolving the module `x` of the scanned
file yields the non-`None` package `""`, yet `scan_directory` returns the
empty set because `if package:` rejects the empty string. -/
theorem c3_scan_directory_counterexample :
    specScanMem [⟨["proj", "a.py"], some [ImportNode.imp ["x"]]⟩] ∅ ∅
        "dependency_detective.py" ∅ [("x", "")] ""
    ∧ "" ∉ scan_directory [⟨["proj", "a.py"], some [ImportNode.imp ["x"]]⟩] ∅ ∅
        "dependency_detective.py" ∅ [("x", "")] := by
  constructor
  · refine ⟨⟨["proj", "a.py"], some [ImportNode.imp ["x"]]⟩, by simp, by decide,
      by simp, ⟨"x", by decide, by decide⟩⟩
  · decide

lemma pyDictHasKey_iff (d : List (String × String)) (k : String) :
    pyDictHasKey d k = true ↔ ∃ e ∈ d, e.1 = k := by
  induction d with
  | nil => simp [pyDictHasKey, pyDictGet]
  | cons e rest ih =>
    by_cases h : e.1 = k
    · simp [pyDictHasKey, pyDictGet, List.find?_cons, h]
    · have hb : (e.1 == k) = false := by simpa using h
      simp only [pyDictHasKey, pyDictGet, List.find?_cons, hb] at ih ⊢
      rw [ih]
      simp [h]

lemma mem_pyDictSet (d : List (String × String)) (k v : String)
    (e : String × String) (he : e ∈ pyDictSet d k v) : e ∈ d ∨ e = (k, v) := by
  unfold pyDictSet at he
  by_cases hany : d.any (fun x => x.1 == k)
  · rw [if_pos hany] at he
    rcases List.mem_map.1 he with ⟨e0, he0, heq⟩
    by_cases h0 : e0.1 = k
    · right
      rw [← heq]
      simp [h0]
    · left
      have hb : (e0.1 == k) = false := by simpa using h0
      rw [← heq]
      simp [hb]
      exact he0
  · rw [if_neg hany] at he
    rcases List.mem_append.1 he with h | h
    · exact Or.inl h
    · exact Or.inr (by simpa using h)

lemma pyDictHasKey_set (d : List (String × String)) (k v k' : String) :
    pyDictHasKey (pyDictSet d k v) k' = true ↔ k' = k ∨ pyDictHasKey d k' = true := by
  rw [pyDictHasKey_iff, pyDictHasKey_iff]
  unfold pyDictSet
  by_cases hany : d.any (fun x => x.1 == k)
  · rw [if_pos hany]
    constructor
    · rintro ⟨e, he, hk'⟩
      rcases List.mem_map.1 he with ⟨e0, he0, heq⟩
      by_cases h0 : e0.1 = k
      · left
        rw [← hk', ← heq]
        simp [h0]
      · right
        refine ⟨e0, he0, ?_⟩
        have hb : (e0.1 == k) = false := by simpa using h0
        rw [← heq] at hk'
        simpa [hb] using hk'
    · rintro (rfl | ⟨e, he, hk'⟩)
      · rcases List.any_eq_true.mp hany with ⟨e0, he0, hb⟩
        refine ⟨(k', v), List.mem_map.2 ⟨e0, he0, ?_⟩, rfl⟩
        have h0 : e0.1 = k' := by simpa using hb
        simp [h0]
      · by_cases h0 : e.1 = k
        · refine ⟨(k, v), List.mem_map.2 ⟨e, he, by simp [h0]⟩, ?_⟩
          rw [← hk', h0]
        · have hb : (e.1 == k) = false := by simpa using h0
          exact ⟨e, List.mem_map.2 ⟨e, he, by simp [hb]⟩, hk'⟩
  · rw [if_neg hany]
    constructor
    · rintro ⟨e, he, hk'⟩
      rcases List.mem_append.1 he with h | h
      · exact Or.inr ⟨e, h, hk'⟩
      · left
        have : e = (k, v) := by simpa using h
        rw [← hk', this]
    · rintro (rfl | ⟨e, he, hk'⟩)
      · exact ⟨(k', v), List.mem_append.2 (Or.inr (by simp)), rfl⟩
      · exact ⟨e, List.mem_append.2 (Or.inl he), hk'⟩

lemma installed_foldl_hasKey (pipList : List (String × String))
    (init : List (String × String)) (k : String) :
    pyDictHasKey (pipList.foldl (fun d q => pyDictSet d (pyLower q.1) q.2) init) k = true ↔
      pyDictHasKey init k = true ∨ ∃ q ∈ pipList, (pyLower q.1) = k := by
  induction pipList generalizing init with
  | nil => simp
  | cons q rest ih =>
    rw [List.foldl_cons, ih, pyDictHasKey_set]
    constructor
    · rintro ((rfl | h) | ⟨e, he, hk⟩)
      · exact Or.inr ⟨q, List.mem_cons_self _ _, rfl⟩
      · exact Or.inl h
      · exact Or.inr ⟨e, List.mem_cons_of_mem _ he, hk⟩
    · rintro (h | ⟨e, he, hk⟩)
      · exact Or.inl (Or.inr h)
      · rcases List.mem_cons.1 he with rfl | he'
        · exact Or.inl (Or.inl hk.symm)
        · exact Or.inr ⟨e, he', hk⟩

lemma installed_foldl_entries (pipList : List (String × String))
    (init : List (String × String)) (e : String × String)
    (he : e ∈ pipList.foldl (fun d q => pyDictSet d (pyLower q.1) q.2) init) :
    e ∈ init ∨ ∃ q ∈ pipList, e = ((pyLower q.1), q.2) := by
  induction pipList generalizing init with
  | nil => exact Or.inl he
  | cons q rest ih =>
    rw [List.foldl_cons] at he
    rcases ih _ he with h | ⟨q', hq', heq⟩
    · rcases mem_pyDictSet _ _ _ _ h with h' | h'
      · exact Or.inl h'
      · exact Or.inr ⟨q, List.mem_cons_self _ _, h'⟩
    · exact Or.inr ⟨q', List.mem_cons_of_mem _ hq', heq⟩

/-- C4: a required dependency is classified missing exactly when its
lowercased name is not a key of the dict `get_installed_packages` builds;
that dict's entries each map an installed package's lowercased name to its
version; and reconciliation only filters, leaving the required list a
supersequence of the missing list. -/
theorem c4_reconciliation_missing (pipList : List (String × String))
    (required : List String) (d : String) :
    (d ∈ missing_deps required (get_installed_packages pipList) ↔
      d ∈ required ∧ ¬ ∃ q ∈ pipList, (pyLower q.1) = (pyLower d))
    ∧ (∀ e ∈ get_installed_packages pipList, ∃ q ∈ pipList, e = ((pyLower q.1), q.2))
    ∧ (missing_deps required (get_installed_packages pipList)).Sublist required := by
  refine ⟨?_, ?_, List.filter_sublist required⟩
  · unfold missing_deps
    rw [List.mem_filter]
    have hkeys := installed_foldl_hasKey pipList [] (pyLower d)
    simp only [pyDictHasKey, pyDictGet, List.find?_nil, Option.map_none', Option.isSome_none,
      Bool.false_eq_true, false_or] at hkeys
    constructor
    · rintro ⟨hd, hfilter⟩
      refine ⟨hd, fun hex => ?_⟩
      rw [Bool.not_eq_true'] at hfilter
      have : pyDictHasKey (get_installed_packages pipList) (pyLower d) = true := by
        unfold get_installed_packages
        rw [installed_foldl_hasKey]
        right
        exact hex
      rw [this] at hfilter
      simp at hfilter
    · rintro ⟨hd, hnex⟩
      refine ⟨hd, ?_⟩
      rw [Bool.not_eq_true']
      by_cases hk : pyDictHasKey (get_installed_packages pipList) (pyLower d) = true
      · exfalso
        apply hnex
        unfold get_installed_packages at hk
        rw [installed_foldl_hasKey] at hk
        rcases hk with h | h
        · simp [pyDictHasKey, pyDictGet] at h
        · exact h
      · simpa using hk
  · intro e he
    rcases installed_foldl_entries pipList [] e he with h | h
    · simp at h
    · exact h

lemma requirementLine_eq_amended (installed : List (String × String))
    (pypi : String → Option String) (dep : String) :
    requirementLine installed pypi dep = amendedLine installed pypi dep := by
  unfold requirementLine amendedLine
  cases h0 : pyDictGet installed (pyLower dep) with
  | none =>
    cases h1 : pypi dep with
    | none => simp [truthyOpt]
    | some w => by_cases hw : w = "" <;> simp [truthyOpt, hw]
  | some v =>
    by_cases hv : v = ""
    · subst hv
      cases h1 : pypi dep with
      | none => simp [truthyOpt]
      | some w => by_cases hw : w = "" <;> simp [truthyOpt, hw]
    · simp [truthyOpt, hv]

/-- C6 (amended): the generated requirements file has one line per
required dependency, in lexicographically sorted order of the dependency
names; each line pins the version from the installed-packages dict when
the lowercased name is present with a non-empty version, otherwise the
non-empty version the PyPI lookup yields, and is the bare unpinned name
otherwise. -/
theorem c6_generate_requirements_amended (dependencies : Finset String)
    (installed : List (String × String)) (pypi : String → Option String) :
    generate_requirements_lines dependencies installed pypi
        = (dependencies.sort (· ≤ ·)).map (amendedLine installed pypi)
    ∧ List.Sorted (· ≤ ·) (dependencies.sort (· ≤ ·))
    ∧ (dependencies.sort (· ≤ ·)).length = dependencies.card
    ∧ (dependencies.sort (· ≤ ·)).Nodup
    ∧ ∀ d, d ∈ dependencies.sort (· ≤ ·) ↔ d ∈ dependencies := by
  refine ⟨?_, Finset.sort_sorted _ _, Finset.length_sort _,
    Finset.sort_nodup _ _, fun d => Finset.mem_sort _⟩
  unfold generate_requirements_lines
  have h : requirementLine installed pypi = amendedLine installed pypi :=
    funext (requirementLine_eq_amended installed pypi)
  rw [h]

/-- Counterexample to C6 as stated: when the installed dict holds the
empty version string for `a`, the claim's line uses it (`a==`), but the
code treats it as falsy and pins the PyPI version instead (`a==9`). -/
theorem c6_generate_requirements_counterexample :
    generate_requirements_lines {"a"} [("a", "")] (fun _ => some "9") = ["a==9"]
    ∧ (({"a"} : Finset String).sort (· ≤ ·)).map
        (claimedLine [("a", "")] (fun _ => some "9")) = ["a=="] := by
  have hsort : ({"a"} : Finset String).sort (· ≤ ·) = ["a"] :=
    Finset.sort_singleton (· ≤ ·) "a"
  constructor
  · unfold generate_requirements_lines
    rw [hsort]
    decide
  · rw [hsort]
    decide

/-- C7: under the PyPI response shape, `get_latest_version` never raises:
it returns either the string under the `info`/`version` keys of the JSON
response or `None`; and whenever the request raises or the status is
4XX/5XX it returns `None`. -/
theorem c7_get_latest_version_total (world : PyPIWorld) (h : pypiShape world) :
    ((∃ s, get_latest_version world = .ok (some (JVal.jstr s))
        ∧ versionField world = some (JVal.jstr s))
      ∨ get_latest_version world = .ok none)
    ∧ (requestFailed world → get_latest_version world = .ok none) := by
  cases world with
  | requestExc => exact ⟨Or.inr rfl, fun _ => rfl⟩
  | response status body =>
    by_cases hbad : (400 ≤ status ∧ status < 500) ∨ (500 ≤ status ∧ status < 600)
    · constructor
      · right
        simp only [get_latest_version]
        rw [if_pos hbad]
      · intro _
        simp only [get_latest_version]
        rw [if_pos hbad]
    · obtain ⟨h600, hshape⟩ := h
      have hlt : status < 400 := by omega
      obtain ⟨fields, rfl, hinfo⟩ := hshape hlt
      constructor
      · rcases hinfo with hnone | ⟨infoFields, hsome, hver⟩
        · right
          simp only [get_latest_version]
          rw [if_neg hbad, hnone]
          simp [jlookup]
        · rcases hver with hvnone | ⟨v, hv⟩
          · right
            simp only [get_latest_version]
            rw [if_neg hbad]
            simp [hsome, hvnone]
          · left
            refine ⟨v, ?_, ?_⟩
            · simp only [get_latest_version]
              rw [if_neg hbad]
              simp [hsome, hv]
            · simp only [versionField]
              simp [hsome, hv]
      · intro hfail
        exact absurd hfail hbad

/-- Witness for C7 at a concrete successful response shaped like the PyPI
JSON (`{"info": {"version": "1.0"}}`, status 200). -/
theorem c7_get_latest_version_total_witness :
    ((∃ s, get_latest_version (PyPIWorld.response 200
          (JVal.jobj [("info", JVal.jobj [("version", JVal.jstr "1.0")])]))
        = .ok (some (JVal.jstr s))
        ∧ versionField (PyPIWorld.response 200
          (JVal.jobj [("info", JVal.jobj [("version", JVal.jstr "1.0")])]))
        = some (JVal.jstr s))
      ∨ get_latest_version (PyPIWorld.response 200
          (JVal.jobj [("info", JVal.jobj [("version", JVal.jstr "1.0")])]))
        = .ok none)
    ∧ (requestFailed (PyPIWorld.response 200
          (JVal.jobj [("info", JVal.jobj [("version", JVal.jstr "1.0")])]))
      → get_latest_version (PyPIWorld.response 200
          (JVal.jobj [("info", JVal.jobj [("version", JVal.jstr "1.0")])]))
        = .ok none) := by
  apply c7_get_latest_version_total
  refine ⟨by omega, fun _ => ⟨_, rfl, Or.inr ⟨_, rfl, Or.inr ⟨"1.0", rfl⟩⟩⟩⟩

lemma mem_addLocals (items : List FSItem) (acc : Finset String) (m : String) :
    m ∈ addLocals items acc ↔ m ∈ acc ∨ ∃ it ∈ items, scanItem it = some m := by
  induction items generalizing acc with
  | nil => simp [addLocals]
  | cons it rest ih =>
    unfold addLocals at ih ⊢
    rw [List.foldl_cons, ih]
    cases hscan : scanItem it with
    | none =>
      simp only []
      constructor
      · rintro (h | ⟨g, hg, hgm⟩)
        · exact Or.inl h
        · exact Or.inr ⟨g, List.mem_cons_of_mem _ hg, hgm⟩
      · rintro (h | ⟨g, hg, hgm⟩)
        · exact Or.inl h
        · rcases List.mem_cons.1 hg with rfl | hg'
          · rw [hscan] at hgm
            exact absurd hgm (by simp)
          · exact Or.inr ⟨g, hg', hgm⟩
    | some n =>
      simp only []
      constructor
      · rintro (h | ⟨g, hg, hgm⟩)
        · rcases Finset.mem_insert.1 h with rfl | h'
          · exact Or.inr ⟨it, List.mem_cons_self _ _, by rw [hscan]⟩
          · exact Or.inl h'
        · exact Or.inr ⟨g, List.mem_cons_of_mem _ hg, hgm⟩
      · rintro (h | ⟨g, hg, hgm⟩)
        · exact Or.inl (Finset.mem_insert_of_mem h)
        · rcases List.mem_cons.1 hg with rfl | hg'
          · rw [hscan] at hgm
            obtain rfl := (Option.some.inj hgm)
            exact Or.inl (Finset.mem_insert_self _ _)
          · exact Or.inr ⟨g, hg', hgm⟩

lemma scanItem_eq_some_iff (it : FSItem) (m : String) :
    scanItem it = some m ↔ recordedAsLocal it m := by
  cases it with
  | dir n ch =>
    show (if hasInitFile ch = true then some n else none) = some m ↔ _
    unfold recordedAsLocal
    by_cases h : hasInitFile ch = true
    · rw [if_pos h]
      constructor
      · intro hm
        obtain rfl := Option.some.inj hm
        exact Or.inl ⟨ch, rfl, h⟩
      · rintro (⟨ch', heq, -⟩ | ⟨nm, heq, -, -⟩)
        · obtain ⟨rfl, rfl⟩ := FSItem.dir.inj heq
          rfl
        · exact absurd heq (by simp)
    · rw [if_neg h]
      constructor
      · intro hm
        exact absurd hm (by simp)
      · rintro (⟨ch', heq, hinit⟩ | ⟨nm, heq, -, -⟩)
        · obtain ⟨rfl, rfl⟩ := FSItem.dir.inj heq
          exact absurd hinit h
        · exact absurd heq (by simp)
  | file n =>
    show (if (pySuffix n == ".py") = true then some (pyStem n) else none) = some m ↔ _
    unfold recordedAsLocal
    by_cases h : pySuffix n = ".py"
    · rw [if_pos (by simpa using h)]
      constructor
      · intro hm
        obtain rfl := Option.some.inj hm
        exact Or.inr ⟨n, rfl, h, rfl⟩
      · rintro (⟨ch', heq, -⟩ | ⟨nm, heq, -, hstem⟩)
        · exact absurd heq (by simp)
        · obtain rfl := FSItem.file.inj heq
          rw [hstem]
    · rw [if_neg (by simpa using h)]
      constructor
      · intro hm
        exact absurd hm (by simp)
      · rintro (⟨ch', heq, -⟩ | ⟨nm, heq, hsuf, -⟩)
        · exact absurd heq (by simp)
        · obtain rfl := FSItem.file.inj heq
          exact absurd hsuf h

/-- C9: `find_local_imports` records a name exactly when an immediate
child of the project root, or of the root's `src` directory when there is
one, is a package directory (containing `__init__.py`) of that name or a
`.py` file of that stem; nothing nested deeper is inspected. -/
theorem c9_find_local_imports_shallow (rootChildren : List FSItem) (m : String) :
    m ∈ find_local_imports rootChildren ↔
      (∃ it ∈ rootChildren, recordedAsLocal it m) ∨
      (∃ ch, srcChildren rootChildren = some ch ∧
        ∃ it ∈ ch, recordedAsLocal it m) := by
  unfold find_local_imports
  cases hsrc : srcChildren rootChildren with
  | none =>
    rw [mem_addLocals]
    constructor
    · rintro (h | ⟨it, hit, hscan⟩)
      · exact absurd h (Finset.not_mem_empty m)
      · exact Or.inl ⟨it, hit, (scanItem_eq_some_iff it m).mp hscan⟩
    · rintro (⟨it, hit, hrec⟩ | ⟨ch, hch, -⟩)
      · exact Or.inr ⟨it, hit, (scanItem_eq_some_iff it m).mpr hrec⟩
      · exact absurd hch (by simp)
  | some ch =>
    rw [mem_addLocals, mem_addLocals]
    constructor
    · rintro ((h | ⟨it, hit, hscan⟩) | ⟨it, hit, hscan⟩)
      · exact absurd h (Finset.not_mem_empty m)
      · exact Or.inl ⟨it, hit, (scanItem_eq_some_iff it m).mp hscan⟩
      · exact Or.inr ⟨ch, rfl, it, hit, (scanItem_eq_some_iff it m).mp hscan⟩
    · rintro (⟨it, hit, hrec⟩ | ⟨ch2, hch2, it, hit, hrec⟩)
      · exact Or.inl (Or.inr ⟨it, hit, (scanItem_eq_some_iff it m).mpr hrec⟩)
      · obtain rfl := Option.some.inj hch2
        exact Or.inr ⟨it, hit, (scanItem_eq_some_iff it m).mpr hrec⟩

lemma tempVenvInstalls_no_runProj (ok : Ev → Bool) (deps : List String) :
    Ev.runProj ∉ (tempVenvInstalls ok deps).1 := by
  induction deps with
  | nil => simp [tempVenvInstalls]
  | cons dep rest ih =>
    unfold tempVenvInstalls
    by_cases h : ok (Ev.install dep) = true
    · rw [if_pos h]
      intro hmem
      rcases List.mem_cons.1 hmem with heq | hmem'
      · exact Ev.noConfusion heq
      · exact ih hmem'
    · rw [if_neg h]
      intro hmem
      rcases List.mem_cons.1 hmem with heq | hmem'
      · exact Ev.noConfusion heq
      · exact absurd hmem' (List.not_mem_nil _)

lemma tempVenvInstalls_complete (ok : Ev → Bool) (deps : List String)
    (h : (tempVenvInstalls ok deps).2 = true) :
    (tempVenvInstalls ok deps).1 = deps.map Ev.install
    ∧ ∀ d ∈ deps, ok (Ev.install d) = true := by
  induction deps with
  | nil => exact ⟨rfl, by simp⟩
  | cons dep rest ih =>
    unfold tempVenvInstalls at h ⊢
    by_cases hd : ok (Ev.install dep) = true
    · rw [if_pos hd] at h ⊢
      obtain ⟨htr, hall⟩ := ih h
      refine ⟨by rw [List.map_cons, htr], ?_⟩
      intro d hdmem
      rcases List.mem_cons.1 hdmem with rfl | hdmem'
      · exact hd
      · exact hall d hdmem'
    · rw [if_neg hd] at h
      exact absurd h (by simp)

lemma main_run_flow_runs (missingDeps : List String) (autoYes : Bool)
    (userInput : String) (ok : Ev → Bool) (projExists : Bool)
    (h : Ev.runProj ∈ (main_run_flow missingDeps autoYes userInput ok projExists).1) :
    (main_run_flow missingDeps autoYes userInput ok projExists).1
      = missingDeps.map Ev.install ++ [Ev.runProj]
    ∧ ∀ d ∈ missingDeps, ok (Ev.install d) = true := by
  unfold main_run_flow at h ⊢
  by_cases hempty : missingDeps.isEmpty
  · rw [if_pos hempty] at h ⊢
    obtain rfl : missingDeps = [] := List.isEmpty_iff.mp hempty
    cases projExists with
    | false =>
      exfalso
      simp at h
    | true =>
      exact ⟨by simp, by simp⟩
  · rw [if_neg hempty] at h ⊢
    by_cases hresp : ((if autoYes then "y" else pyLower (pyStrip userInput)) == "y") = true
    · rw [if_pos hresp] at h ⊢
      by_cases hfail :
          (install_dependencies missingDeps (fun d => ok (Ev.install d))).isEmpty
      · rw [if_pos hfail] at h ⊢
        have hall : ∀ d ∈ missingDeps, ok (Ev.install d) = true := by
          rw [install_dependencies_eq_filter, List.isEmpty_iff,
            List.filter_eq_nil_iff] at hfail
          intro d hd
          simpa using hfail d hd
        cases projExists with
        | false =>
          exfalso
          simp at h
        | true =>
          exact ⟨by simp, hall⟩
      · rw [if_neg hfail] at h
        exfalso
        rcases List.mem_map.1 h with ⟨d, -, heq⟩
        exact Ev.noConfusion heq
    · rw [if_neg hresp] at h
      exact absurd h (List.not_mem_nil _)

/-- C8: the project file is never run before provisioning completes. In
the temporary-venv flow, a trace containing the project run starts with
the venv creation, then an installation of every required dependency (all
successful), and only then the run. In the default flow, a trace
containing the project run consists of the installations of the missing
dependencies (all successful, or none when nothing is missing) followed by
the run; when some installation fails, or dependencies are missing and
consent is refused without `--yes`, the project is never run. -/
theorem c8_provision_before_run (deps missing : List String) (ok : Ev → Bool)
    (autoYes : Bool) (userInput : String) (projExists : Bool) :
    (Ev.runProj ∈ (run_in_temp_venv deps ok).1 →
      (run_in_temp_venv deps ok).1
        = Ev.createVenv :: (deps.map Ev.install ++ [Ev.runProj])
      ∧ ∀ d ∈ deps, ok (Ev.install d) = true)
    ∧ (Ev.runProj ∈ (main_run_flow missing autoYes userInput ok projExists).1 →
      (main_run_flow missing autoYes userInput ok projExists).1
        = missing.map Ev.install ++ [Ev.runProj]
      ∧ ∀ d ∈ missing, ok (Ev.install d) = true)
    ∧ ((∃ d ∈ missing, ok (Ev.install d) = false) →
      Ev.runProj ∉ (main_run_flow missing autoYes userInput ok projExists).1)
    ∧ (missing ≠ [] → autoYes = false → pyLower (pyStrip userInput) ≠ "y" →
      Ev.runProj ∉ (main_run_flow missing autoYes userInput ok projExists).1) := by
  refine ⟨?_, main_run_flow_runs missing autoYes userInput ok projExists, ?_, ?_⟩
  · intro h
    unfold run_in_temp_venv at h ⊢
    by_cases hc : ok Ev.createVenv = true
    · rw [if_pos hc] at h ⊢
      by_cases hcomp : (tempVenvInstalls ok deps).2 = true
      · rw [if_pos hcomp] at h ⊢
        obtain ⟨htr, hall⟩ := tempVenvInstalls_complete ok deps hcomp
        exact ⟨by rw [htr], hall⟩
      · rw [if_neg hcomp] at h
        exfalso
        rcases List.mem_cons.1 h with heq | hmem
        · exact Ev.noConfusion heq
        · exact tempVenvInstalls_no_runProj ok deps hmem
    · rw [if_neg hc] at h
      exfalso
      rcases List.mem_cons.1 h with heq | hmem
      · exact Ev.noConfusion heq
      · exact absurd hmem (List.not_mem_nil _)
  · rintro ⟨d, hd, hfails⟩ h
    obtain ⟨-, hall⟩ := main_run_flow_runs missing autoYes userInput ok projExists h
    rw [hall d hd] at hfails
    exact Bool.noConfusion hfails
  · intro hne hyes hresp h
    unfold main_run_flow at h
    rw [if_neg (by simpa using hne)] at h
    rw [hyes] at h
    rw [if_neg (by simpa using hresp)] at h
    exact absurd h (List.not_mem_nil _)
